import Mathlib

/-!
Verification of the opencode kilo-gateway-free provider scripts.

This file embeds the Python sources (install.py, sync_models.py,
uninstall.py, remove_kilo_anonymous.py) into Lean 4 and proves or refutes
the specification claims about them.

JSON values (Python objects decoded by the json module) are modelled by the
inductive type JVal; Python dicts are association lists whose update
operation replaces the value at the first occurrence of a key (keeping its
position, exactly as a CPython dict keeps insertion order) and appends a
fresh key at the end.
-/

set_option linter.unusedVariables false

/-- A JSON value as decoded by Python's json module: strings, numbers,
booleans, null, arrays and objects.  Numbers are modelled as integers; the
claims under study never depend on fractional values. -/
inductive JVal where
  | str  : String → JVal
  | num  : Int → JVal
  | bool : Bool → JVal
  | null : JVal
  | arr  : List JVal → JVal
  | obj  : List (String × JVal) → JVal
deriving Repr

/-- A Python dict with string keys (a decoded JSON object): an association
list in insertion order. -/
abbrev JObj := List (String × JVal)

mutual

/-- Structural equality on JSON values (Python == on decoded JSON data). -/
def beqJ : JVal → JVal → Bool
  | .str a, .str b => a == b
  | .num a, .num b => a == b
  | .bool a, .bool b => a == b
  | .null, .null => true
  | .arr a, .arr b => beqJList a b
  | .obj a, .obj b => beqJObj a b
  | _, _ => false

/-- Structural equality on lists of JSON values. -/
def beqJList : List JVal → List JVal → Bool
  | [], [] => true
  | x :: xs, y :: ys => beqJ x y && beqJList xs ys
  | _, _ => false

/-- Structural equality on JSON objects. -/
def beqJObj : List (String × JVal) → List (String × JVal) → Bool
  | [], [] => true
  | (k1, v1) :: xs, (k2, v2) :: ys => k1 == k2 && beqJ v1 v2 && beqJObj xs ys
  | _, _ => false

end

mutual

def beqJ_refl : (a : JVal) → beqJ a a = true
  | .str a => by simp [beqJ]
  | .num a => by simp [beqJ]
  | .bool a => by simp [beqJ]
  | .null => rfl
  | .arr a => by simp [beqJ]; exact beqJList_refl a
  | .obj a => by simp [beqJ]; exact beqJObj_refl a

def beqJList_refl : (a : List JVal) → beqJList a a = true
  | [] => rfl
  | x :: xs => by simp [beqJList]; exact ⟨beqJ_refl x, beqJList_refl xs⟩

def beqJObj_refl : (a : List (String × JVal)) → beqJObj a a = true
  | [] => rfl
  | (k, v) :: xs => by simp [beqJObj]; exact ⟨beqJ_refl v, beqJObj_refl xs⟩

end

mutual

def beqJ_eq : (a b : JVal) → beqJ a b = true → a = b
  | .str a, .str b, h => by simp [beqJ] at h; rw [h]
  | .str a, .num b, h => by simp [beqJ] at h
  | .str a, .bool b, h => by simp [beqJ] at h
  | .str a, .null, h => by simp [beqJ] at h
  | .str a, .arr b, h => by simp [beqJ] at h
  | .str a, .obj b, h => by simp [beqJ] at h
  | .num a, .str b, h => by simp [beqJ] at h
  | .num a, .num b, h => by simp [beqJ] at h; rw [h]
  | .num a, .bool b, h => by simp [beqJ] at h
  | .num a, .null, h => by simp [beqJ] at h
  | .num a, .arr b, h => by simp [beqJ] at h
  | .num a, .obj b, h => by simp [beqJ] at h
  | .bool a, .str b, h => by simp [beqJ] at h
  | .bool a, .num b, h => by simp [beqJ] at h
  | .bool a, .bool b, h => by simp [beqJ] at h; rw [h]
  | .bool a, .null, h => by simp [beqJ] at h
  | .bool a, .arr b, h => by simp [beqJ] at h
  | .bool a, .obj b, h => by simp [beqJ] at h
  | .null, .str b, h => by simp [beqJ] at h
  | .null, .num b, h => by simp [beqJ] at h
  | .null, .bool b, h => by simp [beqJ] at h
  | .null, .null, h => rfl
  | .null, .arr b, h => by simp [beqJ] at h
  | .null, .obj b, h => by simp [beqJ] at h
  | .arr a, .str b, h => by simp [beqJ] at h
  | .arr a, .num b, h => by simp [beqJ] at h
  | .arr a, .bool b, h => by simp [beqJ] at h
  | .arr a, .null, h => by simp [beqJ] at h
  | .arr a, .arr b, h => by simp [beqJ] at h; rw [beqJList_eq a b h]
  | .arr a, .obj b, h => by simp [beqJ] at h
  | .obj a, .str b, h => by simp [beqJ] at h
  | .obj a, .num b, h => by simp [beqJ] at h
  | .obj a, .bool b, h => by simp [beqJ] at h
  | .obj a, .null, h => by simp [beqJ] at h
  | .obj a, .arr b, h => by simp [beqJ] at h
  | .obj a, .obj b, h => by simp [beqJ] at h; rw [beqJObj_eq a b h]

def beqJList_eq : (a b : List JVal) → beqJList a b = true → a = b
  | [], [], _ => rfl
  | [], _ :: _, h => by simp [beqJList] at h
  | _ :: _, [], h => by simp [beqJList] at h
  | x :: xs, y :: ys, h => by
      simp [beqJList] at h
      rw [beqJ_eq x y h.1, beqJList_eq xs ys h.2]

def beqJObj_eq : (a b : List (String × JVal)) → beqJObj a b = true → a = b
  | [], [], _ => rfl
  | [], _ :: _, h => by simp [beqJObj] at h
  | _ :: _, [], h => by simp [beqJObj] at h
  | (k1, v1) :: xs, (k2, v2) :: ys, h => by
      simp [beqJObj] at h
      rw [h.1.1, beqJ_eq v1 v2 h.1.2, beqJObj_eq xs ys h.2]

end

instance : DecidableEq JVal := fun a b =>
  if h : beqJ a b = true then isTrue (beqJ_eq a b h)
  else isFalse (fun hh => h (hh ▸ beqJ_refl a))

/-- Python `d.get(k)` / `d[k]` lookup on a dict in insertion order: the
value at the (unique, but here the first) occurrence of the key. -/
def alookup {α β : Type} [DecidableEq α] : List (α × β) → α → Option β
  | [], _ => none
  | (k, v) :: rest, k' => if k = k' then some v else alookup rest k'

/-- Python `d[k] = v` on a dict: replace the value at the first occurrence
of the key keeping its position, or append the new key at the end. -/
def aset {α β : Type} [DecidableEq α] : List (α × β) → α → β → List (α × β)
  | [], k, v => [(k, v)]
  | (k', v') :: rest, k, v =>
      if k' = k then (k', v) :: rest else (k', v') :: aset rest k v

/-- Python `del d[k]` on a dict: drop the entries carrying the key. -/
def aremove {α β : Type} [DecidableEq α] (d : List (α × β)) (k : α) :
    List (α × β) :=
  d.filter (fun p => p.1 ≠ k)

/-- The keys of a dict, in insertion order. -/
def akeys {α β : Type} (d : List (α × β)) : List α := d.map Prod.fst

theorem alookup_aset_self {α β : Type} [DecidableEq α]
    (d : List (α × β)) (k : α) (v : β) : alookup (aset d k v) k = some v := by
  induction d with
  | nil => simp [aset, alookup]
  | cons p rest ih =>
      obtain ⟨k', v'⟩ := p
      by_cases h : k' = k
      · simp [aset, h, alookup]
      · simp [aset, h, alookup, ih]

theorem alookup_aset_ne {α β : Type} [DecidableEq α]
    (d : List (α × β)) (k k' : α) (v : β) (hne : k ≠ k') :
    alookup (aset d k v) k' = alookup d k' := by
  induction d with
  | nil => simp [aset, alookup, hne]
  | cons p rest ih =>
      obtain ⟨k0, v0⟩ := p
      by_cases h : k0 = k
      · subst h
        simp [aset, alookup, hne]
      · simp [aset, h, alookup]
        by_cases h2 : k0 = k'
        · simp [h2]
        · simp [h2, ih]

theorem alookup_eq_none_of_not_mem {α β : Type} [DecidableEq α]
    (d : List (α × β)) (k : α) (h : k ∉ akeys d) : alookup d k = none := by
  induction d with
  | nil => rfl
  | cons p rest ih =>
      obtain ⟨k', v'⟩ := p
      simp only [akeys, List.map_cons, List.mem_cons, not_or] at h
      rw [alookup, if_neg (fun hh => h.1 hh.symm)]
      exact ih (by simp only [akeys]; exact h.2)

theorem aset_eq_append_of_not_mem {α β : Type} [DecidableEq α]
    (d : List (α × β)) (k : α) (v : β) (h : k ∉ akeys d) :
    aset d k v = d ++ [(k, v)] := by
  induction d with
  | nil => rfl
  | cons p rest ih =>
      obtain ⟨k', v'⟩ := p
      simp only [akeys, List.map_cons, List.mem_cons, not_or] at h
      rw [aset, if_neg (fun hh => h.1 hh.symm)]
      rw [ih (by simp only [akeys]; exact h.2)]
      rfl

theorem alookup_aremove_self {α β : Type} [DecidableEq α]
    (d : List (α × β)) (k : α) : alookup (aremove d k) k = none := by
  induction d with
  | nil => rfl
  | cons p rest ih =>
      obtain ⟨k', v'⟩ := p
      by_cases h : k' = k
      · simpa [aremove, h] using ih
      · simpa [aremove, alookup, h] using ih

/-- install.py, deep_merge (lines 63-71): recursively merge override into
base without clobbering sibling keys.  Iterates over the items of override
in order; when the key already maps to a dict in the accumulated result and
the override value is a dict the two are merged recursively, otherwise the
override value is stored wholesale. -/
def deep_merge : JObj → JObj → JObj
  | base, [] => base
  | base, (k, JVal.obj o) :: rest =>
      (match alookup base k with
       | some (JVal.obj b) => deep_merge (aset base k (JVal.obj (deep_merge b o))) rest
       | _ => deep_merge (aset base k (JVal.obj o)) rest)
  | base, (k, v) :: rest => deep_merge (aset base k v) rest
termination_by b o => sizeOf o

theorem deep_merge_nil (base : JObj) : deep_merge base [] = base := by
  simp [deep_merge]

mutual

/-- Python str() on a decoded JSON value.  The container cases follow
Python's repr rendering of lists and dicts; the claims only ever use that
these renderings end in a bracket and are never the strings "0" or "0.0". -/
def pyStr : JVal → String
  | .str s => s
  | .num n => toString n
  | .bool true => "True"
  | .bool false => "False"
  | .null => "None"
  | .arr l => "[" ++ pyReprList l ++ "]"
  | .obj o => "\x7b" ++ pyReprObj o ++ "\x7d"

/-- Python repr() on a decoded JSON value (string escaping not modelled). -/
def pyRepr : JVal → String
  | .str s => "\x27" ++ s ++ "\x27"
  | .num n => toString n
  | .bool true => "True"
  | .bool false => "False"
  | .null => "None"
  | .arr l => "[" ++ pyReprList l ++ "]"
  | .obj o => "\x7b" ++ pyReprObj o ++ "\x7d"

/-- Comma-separated repr of the elements of a Python list. -/
def pyReprList : List JVal → String
  | [] => ""
  | [x] => pyRepr x
  | x :: rest => pyRepr x ++ ", " ++ pyReprList rest

/-- Comma-separated repr of the items of a Python dict. -/
def pyReprObj : List (String × JVal) → String
  | [] => ""
  | [(k, v)] => "\x27" ++ k ++ "\x27: " ++ pyRepr v
  | (k, v) :: rest => "\x27" ++ k ++ "\x27: " ++ pyRepr v ++ ", " ++ pyReprObj rest

end

/-- Python s.endswith(suffix): the character list of the suffix closes the
character list of the string. -/
def strEndsWith (s suffix : String) : Bool :=
  suffix.data.isSuffixOf s.data

/-- Python s.strip() with no argument: whitespace removed from both ends. -/
def strTrim (s : String) : String :=
  String.mk (((s.data.dropWhile Char.isWhitespace).reverse.dropWhile
    Char.isWhitespace).reverse)

/-- Python s.lower() on the ASCII range. -/
def strLower (s : String) : String :=
  String.mk (s.data.map Char.toLower)

/-- install.py lines 92-93 and sync_models.py lines 48-49:
str(m.get("id", "")).endswith(":free"). -/
def is_free_by_suffix (m : JObj) : Bool :=
  strEndsWith (pyStr ((alookup m "id").getD (JVal.str ""))) ":free"

/-- Body of is_free_by_pricing once the pricing dict p has been obtained:
str(p.get("prompt", "")).strip() in ("0", "0.0") and likewise for
completion. -/
def pricing_matches (p : JObj) : Bool :=
  (strTrim (pyStr ((alookup p "prompt").getD (JVal.str ""))) == "0" ||
   strTrim (pyStr ((alookup p "prompt").getD (JVal.str ""))) == "0.0") &&
  (strTrim (pyStr ((alookup p "completion").getD (JVal.str ""))) == "0" ||
   strTrim (pyStr ((alookup p "completion").getD (JVal.str ""))) == "0.0")

/-- install.py lines 96-99 and sync_models.py lines 52-55: p =
m.get("pricing", a fresh empty dict), then test prompt and completion.
Returns none for the AttributeError Python raises when the pricing field
holds a non-mapping (only mappings have a get method). -/
def is_free_by_pricing (m : JObj) : Option Bool :=
  match alookup m "pricing" with
  | none => some (pricing_matches [])
  | some (JVal.obj p) => some (pricing_matches p)
  | some _ => none

/-- install.py lines 28-31 and sync_models.py lines 28-31: manual model
additions not available via the API. -/
def MANUAL_MODELS : List (String × String) :=
  [("giga-potato", "Giga Potato (free)"),
   ("giga-potato-thinking", "Giga Potato Thinking (free)")]

/-- The comprehension building by_pricing; none when some record makes
is_free_by_pricing raise. -/
def filter_by_pricing : List JObj → Option (List JObj)
  | [] => some []
  | m :: rest => do
      let b ← is_free_by_pricing m
      let r ← filter_by_pricing rest
      pure (if b then m :: r else r)

/-- One iteration of the results loop in collect_free_models:
results[m["id"]] = m.get("name", m["id"]).  Returns none for the KeyError
Python raises when the record has no id field. -/
def add_record (results : List (JVal × JVal)) (m : JObj) :
    Option (List (JVal × JVal)) := do
  let idv ← alookup m "id"
  pure (aset results idv ((alookup m "name").getD idv))

/-- install.py lines 102-119 and sync_models.py lines 58-75 with the
module-level manual table passed as a parameter: build by_suffix and
by_pricing, write the selected records into the results dict in order, then
write the manual entries last.  The result dict is keyed by the raw id
values of the records, exactly as the Python dict is. -/
def collect_free_models_with (manual : List (String × String))
    (models : List JObj) : Option (List (JVal × JVal)) :=
  match filter_by_pricing models with
  | none => none
  | some by_pricing =>
      match (models.filter is_free_by_suffix ++ by_pricing).foldlM add_record [] with
      | none => none
      | some results =>
          some (manual.foldl
            (fun acc p => aset acc (JVal.str p.1) (JVal.str p.2)) results)

/-- collect_free_models as in the sources, with the MANUAL_MODELS table. -/
def collect_free_models : List JObj → Option (List (JVal × JVal)) :=
  collect_free_models_with MANUAL_MODELS

/-- Ordering used by Python's sorted() on (key, value) string pairs. -/
def pairLe (p q : String × String) : Bool :=
  decide (p.1 < q.1) || (p.1 == q.1 && !decide (q.2 < p.2))

/-- Insert a pair into an already sorted list. -/
def insertPair (p : String × String) :
    List (String × String) → List (String × String)
  | [] => [p]
  | q :: rest => if pairLe p q then p :: q :: rest else q :: insertPair p rest

/-- Python sorted() on the items of a string-to-string dict. -/
def sortPairs (l : List (String × String)) : List (String × String) :=
  l.foldr insertPair []

/-- install.py lines 122-127: model entries with their display names,
in sorted key order. -/
def build_model_entries (id_to_name : List (String × String)) : JObj :=
  (sortPairs id_to_name).map (fun p => (p.1, JVal.obj [("name", JVal.str p.2)]))

def PROVIDER_KEY : String := "kilo-gateway-free"

def SCHEMA_KEY : String := "$schema"

def SCHEMA_URL : String := "https://opencode.ai/config.json"

/-- The literal provider block install.py merges over the existing provider
entry (install.py lines 185-194). -/
def default_provider_block (model_entries : JObj) : JObj :=
  [("npm", JVal.str "@ai-sdk/openai-compatible"),
   ("name", JVal.str "Kilo Gateway Free"),
   ("options", JVal.obj
      [("baseURL", JVal.str "https://api.kilo.ai/api/openrouter/"),
       ("apiKey", JVal.str "anonymous"),
       ("headers", JVal.obj [("User-Agent", JVal.str "opencode-kilo-provider")])]),
   ("models", JVal.obj model_entries)]

/-- install.py lines 184-194: the updated provider entry, the default block
deep-merged over whatever provider entry already existed. -/
def build_provider_update (existing_provider : JObj) (model_entries : JObj) :
    JObj :=
  deep_merge existing_provider (default_provider_block model_entries)

/-- install.py line 196: merge the updated provider entry into the whole
document under provider.kilo-gateway-free. -/
def install_merged (e1 : JObj) (existing_provider : JObj)
    (model_entries : JObj) : JObj :=
  deep_merge e1 [("provider", JVal.obj
    [(PROVIDER_KEY, JVal.obj (build_provider_update existing_provider model_entries))])]

/-- install.py lines 180-196: the document an install run persists, as a
function of the loaded document and the freshly built model entries.
Sets a default schema key when absent, extracts the existing provider entry
and deep-merges the update in.  Returns none when the run raises before
writing: the document holds a non-mapping under the provider key (the
chained .get call raises AttributeError) or a non-mapping under
provider.kilo-gateway-free (deep_merge raises on a base without dict
methods). -/
def install_e1 (existing : JObj) : JObj :=
  if (alookup existing SCHEMA_KEY).isSome then existing
  else aset existing SCHEMA_KEY (JVal.str SCHEMA_URL)

def install_transform (existing : JObj) (model_entries : JObj) : Option JObj :=
  let e1 := install_e1 existing
  match alookup e1 "provider" with
  | none => some (install_merged e1 [] model_entries)
  | some (JVal.obj provs) =>
      match alookup provs PROVIDER_KEY with
      | none => some (install_merged e1 [] model_entries)
      | some (JVal.obj p) => some (install_merged e1 p model_entries)
      | some _ => none
  | some _ => none

/-- uninstall.py lines 41-54 and remove_kilo_anonymous.py lines 43-56, with
the provider key passed as a parameter: the document on disk after a
removal run, as a function of the loaded document and the operator's answer
to the confirmation prompt.  All exits before the write leave the document
unchanged.  none models the runs that raise: a confirmed deletion on a
non-dict provider value (del raises TypeError), or the membership test on a
provider value that supports no membership at all. -/
def remove_provider_run (key : String) (config : JObj) (confirm : String) :
    Option JObj :=
  match alookup config "provider" with
  | none => some config
  | some (JVal.obj providers) =>
      if (alookup providers key).isSome then
        if strLower (strTrim confirm) == "y" then
          (fun providers2 =>
            some (if providers2.isEmpty then aremove config "provider"
                  else aset config "provider" (JVal.obj providers2)))
            (aremove providers key)
        else some config
      else some config
  | some (JVal.str s) =>
      if s.data.tails.any (fun t => key.data.isPrefixOf t) then
        (if strLower (strTrim confirm) == "y" then none else some config)
      else some config
  | some (JVal.arr l) =>
      if l.contains (JVal.str key) then
        (if strLower (strTrim confirm) == "y" then none else some config)
      else some config
  | some _ => none

theorem sanity_deep_merge :
    deep_merge [("a", JVal.num 1)] [("a", JVal.num 2), ("b", JVal.null)]
    = [("a", JVal.num 2), ("b", JVal.null)] := by
  simp [deep_merge, alookup, aset]

theorem sanity_suffix : is_free_by_suffix [("id", JVal.str "a:free")] = true := by decide

theorem sanity_pricing : is_free_by_pricing
    [("pricing", JVal.obj [("prompt", JVal.str " 0 "), ("completion", JVal.str "0.0")])]
    = some true := by decide

theorem sanity_collect : collect_free_models
    [[("id", JVal.str "a:free"), ("name", JVal.str "A")],
     [("id", JVal.str "b"), ("pricing", JVal.obj [("prompt", JVal.str "1")])]]
  = some [(JVal.str "a:free", JVal.str "A"),
          (JVal.str "giga-potato", JVal.str "Giga Potato (free)"),
          (JVal.str "giga-potato-thinking", JVal.str "Giga Potato Thinking (free)")] := by
  decide

/-- Modelled from the spec's wording of the deep-merge algorithm: the body
of the loop over the items of override.  If the key exists in the result
and both the existing value and the override value are mappings they are
merged recursively, otherwise the override value replaces or introduces the
key outright. -/
def mergeStep (result : JObj) (kv : String × JVal) : JObj :=
  match alookup result kv.1, kv.2 with
  | some (JVal.obj b), JVal.obj o => aset result kv.1 (JVal.obj (deep_merge b o))
  | _, _ => aset result kv.1 kv.2

theorem deep_merge_cons (base : JObj) (kv : String × JVal) (rest : JObj) :
    deep_merge base (kv :: rest) = deep_merge (mergeStep base kv) rest := by
  obtain ⟨k, v⟩ := kv
  cases v with
  | obj o =>
      cases h : alookup base k with
      | none => simp [deep_merge, mergeStep, h]
      | some w => cases w <;> simp [deep_merge, mergeStep, h]
  | str s => simp [deep_merge, mergeStep]
  | num n => simp [deep_merge, mergeStep]
  | bool b => simp [deep_merge, mergeStep]
  | null => simp [deep_merge, mergeStep]
  | arr l => simp [deep_merge, mergeStep]

theorem deep_merge_eq_foldl (base override : JObj) :
    deep_merge base override = override.foldl mergeStep base := by
  induction override generalizing base with
  | nil => simp [deep_merge_nil]
  | cons kv rest ih => rw [deep_merge_cons, List.foldl_cons, ih]

theorem mergeStep_obj_exists_aset (base : JObj) (k : String)
    (o : List (String × JVal)) :
    ∃ w, mergeStep base (k, JVal.obj o) = aset base k w := by
  cases h : alookup base k with
  | none => exact ⟨JVal.obj o, by simp [mergeStep, h]⟩
  | some w => cases w <;> simp [mergeStep, h]

theorem deep_merge_disjoint_append (override : JObj) :
    ∀ acc : JObj, (∀ k ∈ akeys override, k ∉ akeys acc) →
    (akeys override).Nodup → deep_merge acc override = acc ++ override := by
  induction override with
  | nil => intro acc _ _; simp [deep_merge_nil]
  | cons kv rest ih =>
      intro acc hd hn
      obtain ⟨k, v⟩ := kv
      have hk : k ∉ akeys acc := hd k (by simp [akeys])
      have hnone := alookup_eq_none_of_not_mem acc k hk
      have hstep : mergeStep acc (k, v) = acc ++ [(k, v)] := by
        cases v <;>
          simp [mergeStep, hnone, aset_eq_append_of_not_mem acc k _ hk]
      rw [deep_merge_cons, hstep]
      simp only [akeys, List.map_cons, List.nodup_cons] at hn
      rw [ih (acc ++ [(k, v)])]
      · simp
      · intro k' hk'
        simp only [akeys, List.map_append, List.map_cons, List.map_nil,
          List.mem_append, List.mem_singleton, not_or]
        refine ⟨hd k' (by simp [akeys]; right; exact (by simpa [akeys] using hk')), ?_⟩
        intro hcon
        exact hn.1 (hcon ▸ (by simpa [akeys] using hk'))
      · exact hn.2

/-- The results dict after writing a list of key-value pairs in order
(Python: a loop of d[k] = v statements). -/
def write_pairs (acc : List (JVal × JVal)) (ps : List (JVal × JVal)) :
    List (JVal × JVal) :=
  ps.foldl (fun a p => aset a p.1 p.2) acc

theorem write_pairs_not_mem (ps : List (JVal × JVal)) :
    ∀ (acc : List (JVal × JVal)) (k : JVal), k ∉ ps.map Prod.fst →
    alookup (write_pairs acc ps) k = alookup acc k := by
  induction ps with
  | nil => intro acc k _; rfl
  | cons p rest ih =>
      intro acc k hk
      simp only [List.map_cons, List.mem_cons, not_or] at hk
      have hstep : write_pairs acc (p :: rest) =
          write_pairs (aset acc p.1 p.2) rest := rfl
      rw [hstep, ih _ k hk.2, alookup_aset_ne _ _ _ _ (fun hh => hk.1 hh.symm)]

theorem write_pairs_mem_nodup (ps : List (JVal × JVal)) :
    ∀ (acc : List (JVal × JVal)) (k v : JVal), (ps.map Prod.fst).Nodup →
    (k, v) ∈ ps → alookup (write_pairs acc ps) k = some v := by
  induction ps with
  | nil => intro acc k v _ hm; cases hm
  | cons p rest ih =>
      intro acc k v hn hm
      simp only [List.map_cons, List.nodup_cons] at hn
      have hstep : write_pairs acc (p :: rest) =
          write_pairs (aset acc p.1 p.2) rest := rfl
      rcases List.mem_cons.mp hm with heq | hmem
      · subst heq
        rw [hstep, write_pairs_not_mem rest _ k hn.1]
        exact alookup_aset_self _ _ _
      · rw [hstep]
        exact ih _ k v hn.2 hmem

theorem write_pairs_all_same (ps : List (JVal × JVal)) :
    ∀ (acc : List (JVal × JVal)) (k v : JVal),
    (∃ p ∈ ps, p.1 = k) → (∀ p ∈ ps, p.1 = k → p.2 = v) →
    alookup (write_pairs acc ps) k = some v := by
  induction ps with
  | nil => intro acc k v hex _; obtain ⟨p, hp, _⟩ := hex; cases hp
  | cons p rest ih =>
      intro acc k v hex hall
      have hstep : write_pairs acc (p :: rest) =
          write_pairs (aset acc p.1 p.2) rest := rfl
      by_cases hmem : ∃ q ∈ rest, q.1 = k
      · rw [hstep]
        exact ih _ k v hmem (fun q hq hqk => hall q (List.mem_cons_of_mem _ hq) hqk)
      · have hp1 : p.1 = k := by
          obtain ⟨q, hq, hqk⟩ := hex
          rcases List.mem_cons.mp hq with hh | hh
          · rw [← hh]; exact hqk
          · exact absurd ⟨q, hh, hqk⟩ hmem
        have hp2 : p.2 = v := hall p (List.mem_cons_self p rest) hp1
        rw [hstep, write_pairs_not_mem rest _ k ?hnm]
        · rw [hp1, hp2]; exact alookup_aset_self _ _ _
        case hnm =>
          intro hkm
          obtain ⟨q, hq, hqk⟩ := List.mem_map.mp hkm
          exact hmem ⟨q, hq, hqk⟩

/-- The raw id value of a record, defaulting to null (only used where the
id is known to exist). -/
def idOf (m : JObj) : JVal := (alookup m "id").getD JVal.null

/-- The raw display value a record contributes: m.get("name", m["id"]). -/
def nameOf (m : JObj) : JVal := (alookup m "name").getD (idOf m)

theorem foldlM_add_record (l : List JObj) :
    ∀ (acc r : List (JVal × JVal)), l.foldlM add_record acc = some r →
    (∀ m ∈ l, (alookup m "id").isSome) ∧
    r = write_pairs acc (l.map (fun m => (idOf m, nameOf m))) := by
  induction l with
  | nil =>
      intro acc r h
      simp only [List.foldlM_nil] at h
      exact ⟨by simp, by simp [write_pairs, ← Option.some_inj.mp h]⟩
  | cons m rest ih =>
      intro acc r h
      rw [List.foldlM_cons] at h
      cases hid : alookup m "id" with
      | none => rw [add_record, hid] at h; simp at h
      | some idv =>
          have hacc : add_record acc m =
              some (aset acc idv ((alookup m "name").getD idv)) := by
            simp [add_record, hid]
          rw [hacc] at h
          replace h : rest.foldlM add_record
              (aset acc idv ((alookup m "name").getD idv)) = some r := h
          obtain ⟨hall, hr⟩ := ih _ r h
          refine ⟨?_, ?_⟩
          · intro m' hm'
            rcases List.mem_cons.mp hm' with hh | hh
            · rw [hh, hid]; rfl
            · exact hall m' hh
          · have hido : idOf m = idv := by simp [idOf, hid]
            have hnameo : nameOf m = (alookup m "name").getD idv := by
              simp [nameOf, idOf, hid]
            rw [hr]
            have : write_pairs acc ((m :: rest).map (fun m => (idOf m, nameOf m))) =
                write_pairs (aset acc (idOf m) (nameOf m))
                  (rest.map (fun m => (idOf m, nameOf m))) := rfl
            rw [this, hido, hnameo]

theorem filter_by_pricing_eq (l : List JObj) :
    ∀ r : List JObj, filter_by_pricing l = some r →
    (∀ m ∈ l, (is_free_by_pricing m).isSome) ∧
    r = l.filter (fun m => is_free_by_pricing m == some true) := by
  induction l with
  | nil =>
      intro r h
      have h2 : (some ([] : List JObj) : Option (List JObj)) = some r := h
      exact ⟨by simp, by simp [← Option.some_inj.mp h2]⟩
  | cons m rest ih =>
      intro r h
      cases hb : is_free_by_pricing m with
      | none => simp [filter_by_pricing, hb] at h
      | some b =>
          cases hr' : filter_by_pricing rest with
          | none => simp [filter_by_pricing, hb, hr'] at h
          | some r' =>
              have hval : (if b then m :: r' else r') = r := by
                have := h
                simp [filter_by_pricing, hb, hr'] at this
                exact this
              obtain ⟨hall, hfr⟩ := ih r' hr'
              refine ⟨?_, ?_⟩
              · intro m' hm'
                rcases List.mem_cons.mp hm' with hh | hh
                · rw [hh, hb]; rfl
                · exact hall m' hh
              · rw [← hval, hfr]
                cases b with
                | true => simp [List.filter_cons, hb]
                | false => simp [List.filter_cons, hb]

theorem foldl_manual_eq_write_pairs (manual : List (String × String))
    (base : List (JVal × JVal)) :
    manual.foldl (fun acc p => aset acc (JVal.str p.1) (JVal.str p.2)) base =
    write_pairs base (manual.map (fun p => (JVal.str p.1, JVal.str p.2))) := by
  rw [write_pairs, List.foldl_map]

theorem collect_free_models_with_eq (manual : List (String × String))
    (models : List JObj) (result : List (JVal × JVal))
    (h : collect_free_models_with manual models = some result) :
    (∀ m ∈ models.filter is_free_by_suffix ++
        models.filter (fun m => is_free_by_pricing m == some true),
      (alookup m "id").isSome) ∧
    result = write_pairs
      (write_pairs []
        ((models.filter is_free_by_suffix ++
          models.filter (fun m => is_free_by_pricing m == some true)).map
          (fun m => (idOf m, nameOf m))))
      (manual.map (fun p => (JVal.str p.1, JVal.str p.2))) := by
  cases hbp : filter_by_pricing models with
  | none => simp [collect_free_models_with, hbp] at h
  | some bp =>
      obtain ⟨hallp, hbpe⟩ := filter_by_pricing_eq models bp hbp
      cases hfold : (models.filter is_free_by_suffix ++ bp).foldlM add_record [] with
      | none => simp [collect_free_models_with, hbp, hfold] at h
      | some base =>
          obtain ⟨hallid, hbase⟩ := foldlM_add_record _ _ _ hfold
          have hres : result = manual.foldl
              (fun acc p => aset acc (JVal.str p.1) (JVal.str p.2)) base := by
            have := h
            simp [collect_free_models_with, hbp, hfold] at this
            exact this.symm
          subst hbpe
          refine ⟨hallid, ?_⟩
          rw [hres, foldl_manual_eq_write_pairs, hbase]

/-- The config subtree at provider.pk, or none when absent or when
provider does not hold a mapping. -/
def provider_entry_lookup (d : JObj) (pk : String) : Option JVal :=
  match alookup d "provider" with
  | some (JVal.obj provs) => alookup provs pk
  | _ => none

theorem alookup_install_e1_ne (existing : JObj) (k : String)
    (hk : k ≠ SCHEMA_KEY) :
    alookup (install_e1 existing) k = alookup existing k := by
  rw [install_e1]
  by_cases hs : (alookup existing SCHEMA_KEY).isSome
  · rw [if_pos hs]
  · rw [if_neg hs, alookup_aset_ne _ _ _ _ (fun hh => hk hh.symm)]

theorem alookup_install_e1_schema (existing : JObj) :
    alookup (install_e1 existing) SCHEMA_KEY =
      some ((alookup existing SCHEMA_KEY).getD (JVal.str SCHEMA_URL)) := by
  rw [install_e1]
  cases hs : alookup existing SCHEMA_KEY with
  | none => simp [hs, alookup_aset_self]
  | some v => simp [hs]

theorem alookup_install_merged_ne (e1 ep me : JObj) (k : String)
    (hk : k ≠ "provider") :
    alookup (install_merged e1 ep me) k = alookup e1 k := by
  rw [install_merged, deep_merge_cons, deep_merge_nil]
  obtain ⟨w, hw⟩ := mergeStep_obj_exists_aset e1 "provider" _
  rw [hw, alookup_aset_ne _ _ _ _ (fun hh => hk hh.symm)]

theorem alookup_install_merged_provider (e1 ep me : JObj) :
    alookup (install_merged e1 ep me) "provider" = some
      (match alookup e1 "provider" with
       | some (JVal.obj provs) => JVal.obj (deep_merge provs
           [(PROVIDER_KEY, JVal.obj (build_provider_update ep me))])
       | _ => JVal.obj [(PROVIDER_KEY, JVal.obj (build_provider_update ep me))]) := by
  rw [install_merged, deep_merge_cons, deep_merge_nil]
  cases h : alookup e1 "provider" with
  | none => simp [mergeStep, h, alookup_aset_self]
  | some w => cases w <;> simp [mergeStep, h, alookup_aset_self]

theorem install_transform_cases (existing me out : JObj)
    (h : install_transform existing me = some out) :
    (alookup (install_e1 existing) "provider" = none ∧
      out = install_merged (install_e1 existing) [] me) ∨
    (∃ provs, alookup (install_e1 existing) "provider" = some (JVal.obj provs) ∧
      ((alookup provs PROVIDER_KEY = none ∧
        out = install_merged (install_e1 existing) [] me) ∨
       (∃ p, alookup provs PROVIDER_KEY = some (JVal.obj p) ∧
        out = install_merged (install_e1 existing) p me))) := by
  cases hp : alookup (install_e1 existing) "provider" with
  | none =>
      left
      refine ⟨rfl, ?_⟩
      have := h
      simp [install_transform, hp] at this
      exact this.symm
  | some w =>
      cases w with
      | obj provs =>
          right
          refine ⟨provs, rfl, ?_⟩
          cases hpk : alookup provs PROVIDER_KEY with
          | none =>
              left
              refine ⟨rfl, ?_⟩
              have := h
              simp [install_transform, hp, hpk] at this
              exact this.symm
          | some w2 =>
              cases w2 with
              | obj p =>
                  right
                  refine ⟨p, rfl, ?_⟩
                  have := h
                  simp [install_transform, hp, hpk] at this
                  exact this.symm
              | str s => simp [install_transform, hp, hpk] at h
              | num n => simp [install_transform, hp, hpk] at h
              | bool b => simp [install_transform, hp, hpk] at h
              | null => simp [install_transform, hp, hpk] at h
              | arr l => simp [install_transform, hp, hpk] at h
      | str s => simp [install_transform, hp] at h
      | num n => simp [install_transform, hp] at h
      | bool b => simp [install_transform, hp] at h
      | null => simp [install_transform, hp] at h
      | arr l => simp [install_transform, hp] at h

/-- C4: for every pair of mappings, deep_merge base override equals the
fold that starts from (a shallow copy of) base and processes each key of
override in order with mergeStep, the step the spec words: recursive merge
exactly when the key exists in the result and both the existing value and
the override value are mappings, wholesale replacement otherwise; in
particular an array value in override fully replaces any base value at its
key, never merged element-wise. -/
theorem claim_c4_deep_merge_algorithm :
    (∀ base override : JObj,
      deep_merge base override = override.foldl mergeStep base) ∧
    (∀ (base : JObj) (k : String) (l : List JVal),
      alookup (deep_merge base [(k, JVal.arr l)]) k = some (JVal.arr l)) := by
  constructor
  · exact deep_merge_eq_foldl
  · intro base k l
    rw [deep_merge_cons, deep_merge_nil]
    have hstep : mergeStep base (k, JVal.arr l) = aset base k (JVal.arr l) := by
      cases h : alookup base k with
      | none => simp [mergeStep, h]
      | some w => cases w <;> simp [mergeStep, h]
    rw [hstep]
    exact alookup_aset_self _ _ _

/-- C5: the empty mapping is a right identity of deep_merge for every A,
and a left identity for every B whose keys are pairwise distinct (the keys
of a Python dict always are). -/
theorem claim_c5_deep_merge_identity :
    (∀ A : JObj, deep_merge A [] = A) ∧
    (∀ B : JObj, (akeys B).Nodup → deep_merge [] B = B) := by
  constructor
  · exact deep_merge_nil
  · intro B hn
    have h := deep_merge_disjoint_append B [] (by simp [akeys]) hn
    simpa using h

theorem claim_c5_witness :
    deep_merge [("a", JVal.num 1)] [] = [("a", JVal.num 1)] ∧
    deep_merge [] [("b", JVal.num 2), ("c", JVal.null)] =
      [("b", JVal.num 2), ("c", JVal.null)] :=
  ⟨claim_c5_deep_merge_identity.1 _,
   claim_c5_deep_merge_identity.2 _ (by decide)⟩

/-- Modelled from the spec: Rule B (zero pricing): both pricing.prompt and
pricing.completion, taken as strings and whitespace-trimmed, equal "0" or
"0.0"; a missing pricing mapping or a missing prompt or completion field
does not match. -/
def zero_pricing_rule (m : JObj) : Bool :=
  match alookup m "pricing" with
  | some (JVal.obj p) =>
      (match alookup p "prompt" with
       | some v => strTrim (pyStr v) == "0" || strTrim (pyStr v) == "0.0"
       | none => false) &&
      (match alookup p "completion" with
       | some v => strTrim (pyStr v) == "0" || strTrim (pyStr v) == "0.0"
       | none => false)
  | _ => false

theorem pricing_matches_eq_rule (p : JObj) :
    pricing_matches p =
      ((match alookup p "prompt" with
        | some v => strTrim (pyStr v) == "0" || strTrim (pyStr v) == "0.0"
        | none => false) &&
       (match alookup p "completion" with
        | some v => strTrim (pyStr v) == "0" || strTrim (pyStr v) == "0.0"
        | none => false)) := by
  have h0 : (strTrim (pyStr (JVal.str "")) == "0" ||
             strTrim (pyStr (JVal.str "")) == "0.0") = false := by decide
  cases hp : alookup p "prompt" <;> cases hc : alookup p "completion" <;>
    simp [pricing_matches, hp, hc, h0]

/-- C8: on every record whose pricing field is absent or holds a mapping
(the only shapes on which the code does not raise), the code's zero-pricing
test decides exactly the spec's Rule B: both pricing.prompt and
pricing.completion, as whitespace-trimmed strings, equal "0" or "0.0", a
missing pricing mapping or a missing field never matching. -/
theorem claim_c8_zero_pricing (m : JObj)
    (h : alookup m "pricing" = none ∨
         ∃ p, alookup m "pricing" = some (JVal.obj p)) :
    is_free_by_pricing m = some (zero_pricing_rule m) := by
  rcases h with h | ⟨p, h⟩
  · have h0 : pricing_matches [] = false := by decide
    simp [is_free_by_pricing, zero_pricing_rule, h, h0]
  · simp [is_free_by_pricing, zero_pricing_rule, h, pricing_matches_eq_rule]

theorem claim_c8_witness :
    is_free_by_pricing [("pricing", JVal.obj
      [("prompt", JVal.str " 0 "), ("completion", JVal.str "0.0")])] =
    some (zero_pricing_rule [("pricing", JVal.obj
      [("prompt", JVal.str " 0 "), ("completion", JVal.str "0.0")])]) :=
  claim_c8_zero_pricing _ (Or.inr ⟨_, rfl⟩)

/-- C1: the code evaluated at a provider entry whose models dict holds a
stale id and a fresh map without that id: the merged provider entry keeps
the stale model alongside the fresh one, because deep_merge recurses into
the two models dicts instead of replacing the old one.  The claim, the
spec and the code's own comment (replace only the models block) say the
models field must equal exactly the freshly built entries. -/
theorem claim_c1_stale_models_survive :
    build_model_entries [("a:free", "A")] =
      [("a:free", JVal.obj [("name", JVal.str "A")])] ∧
    alookup (build_provider_update
        [("models", JVal.obj [("stale-model", JVal.obj [("name", JVal.str "Stale")])])]
        [("a:free", JVal.obj [("name", JVal.str "A")])]) "models" =
      some (JVal.obj
        [("stale-model", JVal.obj [("name", JVal.str "Stale")]),
         ("a:free", JVal.obj [("name", JVal.str "A")])]) := by
  constructor
  · rfl
  · simp [build_provider_update, default_provider_block, deep_merge_eq_foldl,
      mergeStep, alookup, aset]

/-- C9: on every document in which the target key is the only entry under
provider, a confirmed removal run produces a document with no provider key
at all. -/
theorem claim_c9_remove_last_provider (key : String) (config : JObj)
    (v : JVal) (out : JObj)
    (hprov : alookup config "provider" = some (JVal.obj [(key, v)]))
    (hrun : remove_provider_run key config "y" = some out) :
    alookup out "provider" = none := by
  have hy : (strLower (strTrim "y") == "y") = true := by decide
  simp only [remove_provider_run, hprov] at hrun
  rw [if_pos (by simp [alookup]), if_pos (by simp [hy])] at hrun
  have hrem : aremove [(key, v)] key = [] := by simp [aremove]
  rw [hrem] at hrun
  simp only [List.isEmpty_nil, if_pos] at hrun
  rw [← Option.some_inj.mp hrun]
  exact alookup_aremove_self config "provider"

theorem claim_c9_witness :
    alookup ([("other", JVal.num 1)] : JObj) "provider" = none :=
  claim_c9_remove_last_provider "kilo-gateway-free"
    [("provider", JVal.obj [("kilo-gateway-free", JVal.obj [])]),
     ("other", JVal.num 1)]
    (JVal.obj []) [("other", JVal.num 1)] (by decide) (by decide)

theorem install_transform_no_provider (existing me : JObj)
    (hp : alookup (install_e1 existing) "provider" = none) :
    install_transform existing me =
      some (install_merged (install_e1 existing) [] me) := by
  simp [install_transform, hp]

theorem alookup_install_merged_provider_none (e1 ep me : JObj)
    (h : alookup e1 "provider" = none) :
    alookup (install_merged e1 ep me) "provider" =
      some (JVal.obj [(PROVIDER_KEY, JVal.obj (build_provider_update ep me))]) := by
  rw [alookup_install_merged_provider, h]

theorem alookup_install_merged_provider_obj (e1 ep me : JObj)
    (provs : List (String × JVal))
    (h : alookup e1 "provider" = some (JVal.obj provs)) :
    alookup (install_merged e1 ep me) "provider" =
      some (JVal.obj (deep_merge provs
        [(PROVIDER_KEY, JVal.obj (build_provider_update ep me))])) := by
  rw [alookup_install_merged_provider, h]

/-- C10: every document persisted by an install run carries a top-level
schema key: the default schema URL when the loaded document had none, and
the loaded document's own value unchanged when it had one. -/
theorem claim_c10_schema_key (existing me out : JObj)
    (h : install_transform existing me = some out) :
    (alookup existing SCHEMA_KEY = none →
      alookup out SCHEMA_KEY = some (JVal.str SCHEMA_URL)) ∧
    (∀ v, alookup existing SCHEMA_KEY = some v →
      alookup out SCHEMA_KEY = some v) := by
  have hsp : SCHEMA_KEY ≠ "provider" := by decide
  have key : alookup out SCHEMA_KEY = alookup (install_e1 existing) SCHEMA_KEY := by
    rcases install_transform_cases existing me out h with ⟨_, rfl⟩ | ⟨provs, _, hcase⟩
    · exact alookup_install_merged_ne _ _ _ _ hsp
    · rcases hcase with ⟨_, rfl⟩ | ⟨p, _, rfl⟩ <;>
        exact alookup_install_merged_ne _ _ _ _ hsp
  constructor
  · intro hn
    rw [key, alookup_install_e1_schema, hn]
    rfl
  · intro v hv
    rw [key, alookup_install_e1_schema, hv]
    rfl

theorem claim_c10_witness :
    (alookup ([("other", JVal.num 7)] : JObj) SCHEMA_KEY = none →
      alookup (install_merged (install_e1 [("other", JVal.num 7)]) [] [])
        SCHEMA_KEY = some (JVal.str SCHEMA_URL)) ∧
    (∀ v, alookup ([("other", JVal.num 7)] : JObj) SCHEMA_KEY = some v →
      alookup (install_merged (install_e1 [("other", JVal.num 7)]) [] [])
        SCHEMA_KEY = some v) :=
  claim_c10_schema_key [("other", JVal.num 7)] []
    (install_merged (install_e1 [("other", JVal.num 7)]) [] [])
    (install_transform_no_provider _ _ (by decide))

/-- C2 (amended): an install run carries every key of the loaded document
outside the owned subtree provider.kilo-gateway-free through unchanged:
top-level keys other than provider and the schema key keep their values, a
schema key already present keeps its value, and every provider entry other
than kilo-gateway-free keeps its value.  (As frozen the claim also covered
the schema key itself; the counterexample shows the run adds a schema key
to a document that has none, so the schema key has to be excepted.) -/
theorem claim_c2_frame (existing me out : JObj)
    (h : install_transform existing me = some out) :
    (∀ k, k ≠ "provider" → k ≠ SCHEMA_KEY →
      alookup out k = alookup existing k) ∧
    (∀ v, alookup existing SCHEMA_KEY = some v →
      alookup out SCHEMA_KEY = some v) ∧
    (∀ pk, pk ≠ PROVIDER_KEY →
      provider_entry_lookup out pk = provider_entry_lookup existing pk) := by
  have hsp : SCHEMA_KEY ≠ "provider" := by decide
  have hpe : alookup (install_e1 existing) "provider" = alookup existing "provider" :=
    alookup_install_e1_ne existing "provider" (by decide)
  rcases install_transform_cases existing me out h with
    ⟨hpnone, rfl⟩ | ⟨provs, hpsome, hcase⟩
  · have hex : alookup existing "provider" = none := hpe.symm.trans hpnone
    refine ⟨?_, ?_, ?_⟩
    · intro k hk1 hk2
      rw [alookup_install_merged_ne _ _ _ _ hk1,
        alookup_install_e1_ne existing k hk2]
    · intro v hv
      rw [alookup_install_merged_ne _ _ _ _ hsp, alookup_install_e1_schema, hv]
      rfl
    · intro pk hpk
      have hl := alookup_install_merged_provider_none (install_e1 existing)
        [] me hpnone
      simp only [provider_entry_lookup, hl, hex]
      rw [alookup, if_neg (fun hh => hpk hh.symm)]
      rfl
  · have hex : alookup existing "provider" = some (JVal.obj provs) :=
      hpe.symm.trans hpsome
    have hout : ∃ ep, out = install_merged (install_e1 existing) ep me := by
      rcases hcase with ⟨_, rfl⟩ | ⟨p, _, rfl⟩
      · exact ⟨[], rfl⟩
      · exact ⟨p, rfl⟩
    obtain ⟨ep, rfl⟩ := hout
    refine ⟨?_, ?_, ?_⟩
    · intro k hk1 hk2
      rw [alookup_install_merged_ne _ _ _ _ hk1,
        alookup_install_e1_ne existing k hk2]
    · intro v hv
      rw [alookup_install_merged_ne _ _ _ _ hsp, alookup_install_e1_schema, hv]
      rfl
    · intro pk hpk
      have hl := alookup_install_merged_provider_obj (install_e1 existing)
        ep me provs hpsome
      simp only [provider_entry_lookup, hl, hex]
      rw [deep_merge_cons, deep_merge_nil]
      obtain ⟨w, hw⟩ := mergeStep_obj_exists_aset provs PROVIDER_KEY
        (build_provider_update ep me)
      rw [hw, alookup_aset_ne _ _ _ _ (fun hh => hpk hh.symm)]

/-- C2 counterexample: on a document with no schema key, the persisted
document disagrees with the loaded one at the top-level schema key, a key
outside the owned subtree provider.kilo-gateway-free. -/
theorem claim_c2_counterexample :
    ((install_transform [("other", JVal.obj [("x", JVal.num 1)])] []).map
      (fun d => alookup d SCHEMA_KEY)) = some (some (JVal.str SCHEMA_URL)) ∧
    alookup [("other", JVal.obj [("x", JVal.num 1)])] SCHEMA_KEY = none := by
  constructor
  · rw [install_transform_no_provider _ _ (by decide)]
    show some (alookup (install_merged
      (install_e1 [("other", JVal.obj [("x", JVal.num 1)])]) [] []) SCHEMA_KEY) =
      some (some (JVal.str SCHEMA_URL))
    rw [alookup_install_merged_ne _ _ _ _ (by decide : SCHEMA_KEY ≠ "provider")]
    decide
  · rfl

theorem claim_c2_witness :
    (∀ k, k ≠ "provider" → k ≠ SCHEMA_KEY →
      alookup (install_merged (install_e1 [("other", JVal.num 7)]) [] []) k =
      alookup ([("other", JVal.num 7)] : JObj) k) ∧
    (∀ v, alookup ([("other", JVal.num 7)] : JObj) SCHEMA_KEY = some v →
      alookup (install_merged (install_e1 [("other", JVal.num 7)]) [] [])
        SCHEMA_KEY = some v) ∧
    (∀ pk, pk ≠ PROVIDER_KEY →
      provider_entry_lookup
        (install_merged (install_e1 [("other", JVal.num 7)]) [] []) pk =
      provider_entry_lookup ([("other", JVal.num 7)] : JObj) pk) :=
  claim_c2_frame [("other", JVal.num 7)] []
    (install_merged (install_e1 [("other", JVal.num 7)]) [] [])
    (install_transform_no_provider _ _ (by decide))

/-- C3 counterexample: a record with an empty name string.  The code stores
the empty string as the display name, because dict.get only falls back to
the id when the name key is missing; the claim says the id itself should be
the value whenever the name is absent or empty. -/
theorem claim_c3_counterexample :
    (collect_free_models [[("id", JVal.str "x:free"), ("name", JVal.str "")]]).map
      (fun r => alookup r (JVal.str "x:free")) = some (some (JVal.str "")) ∧
    JVal.str "" ≠ JVal.str "x:free" := by
  constructor
  · decide
  · decide

/-- C3 (amended): on every record list with catalogue-unique ids, each
record satisfying the suffix rule or the zero-pricing rule whose id is not
claimed by the manual map appears in the filtered result keyed by its id,
and its mapped value is the record's name field whenever one is present
(even when it is empty, which is where the frozen claim overstated the
code), and the id itself only when the name field is absent. -/
theorem claim_c3_collected_value (models : List JObj)
    (result : List (JVal × JVal)) (m : JObj) (idv : JVal)
    (hrun : collect_free_models models = some result)
    (hm : m ∈ models)
    (hid : alookup m "id" = some idv)
    (hrule : is_free_by_suffix m = true ∨ is_free_by_pricing m = some true)
    (huniq : ∀ m' ∈ models, alookup m' "id" = some idv → m' = m)
    (hmanual : ∀ p ∈ MANUAL_MODELS, JVal.str p.1 ≠ idv) :
    alookup result idv = some ((alookup m "name").getD idv) := by
  obtain ⟨hallid, hres⟩ :=
    collect_free_models_with_eq MANUAL_MODELS models result hrun
  rw [hres, write_pairs_not_mem _ _ _ ?hman]
  case hman =>
    intro hkm
    obtain ⟨p, hp, hpk⟩ := List.mem_map.mp hkm
    obtain ⟨q, hq, rfl⟩ := List.mem_map.mp hp
    exact hmanual q hq hpk
  apply write_pairs_all_same
  · refine ⟨(idOf m, nameOf m), List.mem_map.mpr ⟨m, ?_, rfl⟩, by simp [idOf, hid]⟩
    rcases hrule with hs | hp
    · exact List.mem_append_left _ (List.mem_filter.mpr ⟨hm, hs⟩)
    · refine List.mem_append_right _ (List.mem_filter.mpr ⟨hm, ?_⟩)
      simp [hp]
  · intro q hq hqk
    obtain ⟨m', hm', rfl⟩ := List.mem_map.mp hq
    have hm'mem : m' ∈ models := by
      rcases List.mem_append.mp hm' with hh | hh
      · exact (List.mem_filter.mp hh).1
      · exact (List.mem_filter.mp hh).1
    have hidsome : (alookup m' "id").isSome := hallid m' hm'
    have hid' : alookup m' "id" = some idv := by
      cases hcase : alookup m' "id" with
      | none => rw [hcase] at hidsome; simp at hidsome
      | some w =>
          have hw : idOf m' = w := by simp [idOf, hcase]
          have hwv : w = idv := by rw [← hw]; exact hqk
          rw [hwv]
    have heq := huniq m' hm'mem hid'
    subst heq
    simp [nameOf, idOf, hid]

theorem claim_c3_witness :
    alookup [(JVal.str "w:free", JVal.str "W"),
      (JVal.str "giga-potato", JVal.str "Giga Potato (free)"),
      (JVal.str "giga-potato-thinking", JVal.str "Giga Potato Thinking (free)")]
      (JVal.str "w:free") = some (JVal.str "W") := by
  have h := claim_c3_collected_value
    [[("id", JVal.str "w:free"), ("name", JVal.str "W")]]
    [(JVal.str "w:free", JVal.str "W"),
     (JVal.str "giga-potato", JVal.str "Giga Potato (free)"),
     (JVal.str "giga-potato-thinking", JVal.str "Giga Potato Thinking (free)")]
    [("id", JVal.str "w:free"), ("name", JVal.str "W")]
    (JVal.str "w:free")
    (by decide) (by decide) (by decide)
    (Or.inl (by decide))
    (by intro m' hm' hid'; simp at hm'; exact hm')
    (by decide)
  simpa using h

/-- C7: for every manual map with pairwise distinct keys (the keys of the
Python dict always are) and every record list the filter accepts, every
manual id appears in the filtered result, even when absent from the
catalogue, and its display name is the manual one, overriding any
catalogue-sourced name for that id. -/
theorem claim_c7_manual_overrides (manual : List (String × String))
    (models : List JObj) (result : List (JVal × JVal)) (mid name : String)
    (hnodup : (manual.map Prod.fst).Nodup)
    (hrun : collect_free_models_with manual models = some result)
    (hmem : (mid, name) ∈ manual) :
    alookup result (JVal.str mid) = some (JVal.str name) := by
  obtain ⟨_, hres⟩ := collect_free_models_with_eq manual models result hrun
  rw [hres]
  apply write_pairs_mem_nodup
  · have hmaps : (manual.map (fun p => (JVal.str p.1, JVal.str p.2))).map Prod.fst
        = (manual.map Prod.fst).map JVal.str := by
      simp [List.map_map]
    rw [hmaps]
    exact hnodup.map (fun a b hab => JVal.str.inj hab)
  · exact List.mem_map.mpr ⟨(mid, name), hmem, rfl⟩

theorem claim_c7_witness :
    alookup [(JVal.str "extra-model", JVal.str "Extra")]
      (JVal.str "extra-model") = some (JVal.str "Extra") :=
  claim_c7_manual_overrides [("extra-model", "Extra")] []
    [(JVal.str "extra-model", JVal.str "Extra")] "extra-model" "Extra"
    (by decide) (by decide) (by decide)

/-- A Python runtime value for the heap-level model of deep_merge: either a
value with no dict part (kept opaque: the merge copies such values by
reference and never looks inside them) or a reference to a dict object
living in the store. -/
inductive HVal where
  | prim : JVal → HVal
  | ref  : Nat → HVal
deriving Repr, DecidableEq

/-- The items of one Python dict object, values possibly referring to other
dict objects by address. -/
abbrev HObj := List (String × HVal)

/-- A heap of dict objects: the allocated addresses all lie below the
allocation counter next. -/
structure Store where
  mem  : List (Nat × HObj)
  next : Nat
deriving Repr

def Store.get (σ : Store) (a : Nat) : Option HObj := alookup σ.mem a

def Store.set (σ : Store) (a : Nat) (o : HObj) : Store :=
  ⟨aset σ.mem a o, σ.next⟩

def Store.alloc (σ : Store) (o : HObj) : Store × Nat :=
  (⟨(σ.next, o) :: σ.mem, σ.next + 1⟩, σ.next)

/-- Every allocated address lies below the allocation counter. -/
def StoreWF (σ : Store) : Prop := ∀ p ∈ σ.mem, p.1 < σ.next

mutual

/-- deep_merge read operationally on the heap: result = base.copy()
allocates a fresh dict holding base's items, then the loop writes into that
fresh dict only.  The fuel argument bounds the recursion depth (stores
decoded from JSON are acyclic, so fuel at least the nesting depth
reproduces the Python run); when it runs out the base address comes back
with the store untouched, so the frame property is independent of fuel. -/
def hmerge (fuel : Nat) (σ : Store) (a b : Nat) : Store × Nat :=
  match fuel with
  | 0 => (σ, a)
  | fuel' + 1 =>
      (fun p => (hmergeGo fuel' p.1 p.2 ((p.1.get b).getD []), p.2))
        (σ.alloc ((σ.get a).getD []))
termination_by (fuel, 0)

/-- One iteration of the loop body: result[key] = deep_merge(result[key],
value) when both sides are dict references, result[key] = value otherwise.
Only the dict at address r is written. -/
def hstep (fuel : Nat) (σ : Store) (r : Nat) (k : String) (v : HVal) :
    Store :=
  match alookup ((σ.get r).getD []) k, v with
  | some (HVal.ref ba), HVal.ref oa =>
      (fun q => q.1.set r (aset ((q.1.get r).getD []) k (HVal.ref q.2)))
        (hmerge fuel σ ba oa)
  | _, _ => σ.set r (aset ((σ.get r).getD []) k v)
termination_by (fuel, 1)

/-- The loop over the items of override, writing into the fresh result dict
at address r. -/
def hmergeGo (fuel : Nat) (σ : Store) (r : Nat) (items : HObj) : Store :=
  match items with
  | [] => σ
  | (k, v) :: rest => hmergeGo fuel (hstep fuel σ r k v) r rest
termination_by (fuel, items.length + 2)

end

theorem Store.get_set_ne (σ : Store) (a x : Nat) (o : HObj) (h : x ≠ a) :
    (σ.set a o).get x = σ.get x :=
  alookup_aset_ne _ _ _ _ (fun hh => h hh.symm)

theorem mem_aset {α β : Type} [DecidableEq α]
    (d : List (α × β)) (k : α) (v : β) :
    ∀ p ∈ aset d k v, p.1 = k ∨ p ∈ d := by
  induction d with
  | nil =>
      intro p hp
      simp [aset] at hp
      left; rw [hp]
  | cons q rest ih =>
      intro p hp
      obtain ⟨k', v'⟩ := q
      by_cases hk : k' = k
      · simp only [aset, if_pos hk] at hp
        rcases List.mem_cons.mp hp with hh | hh
        · left; rw [hh, hk]
        · right; exact List.mem_cons_of_mem _ hh
      · simp only [aset, if_neg hk] at hp
        rcases List.mem_cons.mp hp with hh | hh
        · right; rw [hh]; exact List.mem_cons_self _ _
        · rcases ih p hh with h1 | h1
          · left; exact h1
          · right; exact List.mem_cons_of_mem _ h1

theorem StoreWF.set_wf {σ : Store} (hwf : StoreWF σ) {a : Nat} (o : HObj)
    (ha : a < σ.next) : StoreWF (σ.set a o) := by
  intro p hp
  rcases mem_aset σ.mem a o p hp with h1 | h1
  · show p.1 < σ.next
    rw [h1]; exact ha
  · exact hwf p h1

theorem StoreWF.alloc_wf {σ : Store} (hwf : StoreWF σ) (o : HObj) :
    StoreWF (σ.alloc o).1 := by
  intro p hp
  rcases List.mem_cons.mp hp with hh | hh
  · rw [hh]; exact Nat.lt_succ_self _
  · exact Nat.lt_succ_of_lt (hwf p hh)

theorem Store.get_alloc_old (σ : Store) (o : HObj) (x : Nat)
    (hx : x < σ.next) : (σ.alloc o).1.get x = σ.get x := by
  show alookup ((σ.next, o) :: σ.mem) x = alookup σ.mem x
  rw [alookup, if_neg (fun hh => Nat.ne_of_lt hx hh.symm)]

theorem hstep_cases (fuel : Nat) (σ : Store) (r : Nat) (k : String)
    (v : HVal) :
    hstep fuel σ r k v = σ.set r (aset ((σ.get r).getD []) k v) ∨
    ∃ ba oa, hstep fuel σ r k v =
      (hmerge fuel σ ba oa).1.set r
        (aset (((hmerge fuel σ ba oa).1.get r).getD []) k
          (HVal.ref (hmerge fuel σ ba oa).2)) := by
  cases hl : alookup ((σ.get r).getD []) k with
  | none => left; cases v <;> simp [hstep, hl]
  | some w =>
      cases w with
      | prim j => left; cases v <;> simp [hstep, hl]
      | ref ba =>
          cases v with
          | prim j => left; simp [hstep, hl]
          | ref oa => right; exact ⟨ba, oa, by simp [hstep, hl]⟩

/-- The frame property of hmerge at a given fuel, stated for reuse in the
fuel induction. -/
def MergeFrame (fuel : Nat) : Prop :=
  ∀ σ a b, StoreWF σ →
    (∀ x, x < σ.next → (hmerge fuel σ a b).1.get x = σ.get x) ∧
    σ.next ≤ (hmerge fuel σ a b).1.next ∧ StoreWF (hmerge fuel σ a b).1

theorem hstep_frame (fuel : Nat) (ihm : MergeFrame fuel) (σ : Store)
    (r : Nat) (k : String) (v : HVal) (hwf : StoreWF σ) (hr : r < σ.next) :
    (∀ x, x < σ.next → x ≠ r → (hstep fuel σ r k v).get x = σ.get x) ∧
    σ.next ≤ (hstep fuel σ r k v).next ∧ StoreWF (hstep fuel σ r k v) := by
  rcases hstep_cases fuel σ r k v with heq | ⟨ba, oa, heq⟩
  · rw [heq]
    exact ⟨fun x _ hx => Store.get_set_ne _ _ _ _ hx, le_refl _,
      hwf.set_wf _ hr⟩
  · rw [heq]
    obtain ⟨hget, hnext, hwf2⟩ := ihm σ ba oa hwf
    refine ⟨?_, ?_, ?_⟩
    · intro x hx hxr
      rw [Store.get_set_ne _ _ _ _ hxr]
      exact hget x hx
    · exact hnext
    · exact hwf2.set_wf _ (Nat.lt_of_lt_of_le hr hnext)

theorem hmergeGo_frame (fuel : Nat) (ihm : MergeFrame fuel) (items : HObj) :
    ∀ σ r, StoreWF σ → r < σ.next →
      (∀ x, x < σ.next → x ≠ r → (hmergeGo fuel σ r items).get x = σ.get x) ∧
      σ.next ≤ (hmergeGo fuel σ r items).next ∧
      StoreWF (hmergeGo fuel σ r items) := by
  induction items with
  | nil =>
      intro σ r hwf hr
      exact ⟨fun x _ _ => by simp [hmergeGo], by simp [hmergeGo], by
        simpa [hmergeGo] using hwf⟩
  | cons kv rest ih =>
      intro σ r hwf hr
      obtain ⟨k, v⟩ := kv
      have hunf : hmergeGo fuel σ r ((k, v) :: rest) =
          hmergeGo fuel (hstep fuel σ r k v) r rest := by
        simp [hmergeGo]
      obtain ⟨hg1, hn1, hw1⟩ := hstep_frame fuel ihm σ r k v hwf hr
      obtain ⟨hg2, hn2, hw2⟩ := ih (hstep fuel σ r k v) r hw1
        (Nat.lt_of_lt_of_le hr hn1)
      rw [hunf]
      refine ⟨?_, Nat.le_trans hn1 hn2, hw2⟩
      intro x hx hxr
      rw [hg2 x (Nat.lt_of_lt_of_le hx hn1) hxr, hg1 x hx hxr]

theorem hmerge_frame : ∀ fuel : Nat, MergeFrame fuel := by
  intro fuel
  induction fuel with
  | zero =>
      intro σ a b hwf
      have h0 : hmerge 0 σ a b = (σ, a) := by simp [hmerge]
      rw [h0]
      exact ⟨fun x _ => rfl, le_refl _, hwf⟩
  | succ fuel ih =>
      intro σ a b hwf
      have hunf : hmerge (fuel + 1) σ a b =
          (hmergeGo fuel (σ.alloc ((σ.get a).getD [])).1 σ.next
            (((σ.alloc ((σ.get a).getD [])).1.get b).getD []), σ.next) := by
        simp [hmerge, Store.alloc]
      have hwf1 : StoreWF (σ.alloc ((σ.get a).getD [])).1 := hwf.alloc_wf _
      have hr1 : σ.next < (σ.alloc ((σ.get a).getD [])).1.next :=
        Nat.lt_succ_self _
      obtain ⟨hg, hn, hw⟩ := hmergeGo_frame fuel ih
        (((σ.alloc ((σ.get a).getD [])).1.get b).getD [])
        (σ.alloc ((σ.get a).getD [])).1 σ.next hwf1 hr1
      rw [hunf]
      refine ⟨?_, ?_, hw⟩
      · intro x hx
        rw [hg x (Nat.lt_succ_of_lt hx) (Nat.ne_of_lt hx),
          Store.get_alloc_old σ _ x hx]
      · exact Nat.le_trans (Nat.le_succ _) hn

/-- C6: heap-level purity of deep_merge.  Run on any well-formed store, a
merge call leaves every dict allocated before the call unchanged — in
particular both of its arguments keep exactly their pre-call contents, and
with them all the substructure they reference — and the merge only ever
writes to freshly allocated addresses. -/
theorem claim_c6_merge_pure (fuel : Nat) (σ : Store) (a b : Nat)
    (hwf : StoreWF σ) (ha : a < σ.next) (hb : b < σ.next) :
    (hmerge fuel σ a b).1.get a = σ.get a ∧
    (hmerge fuel σ a b).1.get b = σ.get b ∧
    (∀ x, x < σ.next → (hmerge fuel σ a b).1.get x = σ.get x) := by
  obtain ⟨hg, _, _⟩ := hmerge_frame fuel σ a b hwf
  exact ⟨hg a ha, hg b hb, hg⟩

theorem claim_c6_witness :
    (hmerge 3 ⟨[(0, [("k", HVal.prim (JVal.num 1))]),
       (1, [("k", HVal.prim (JVal.num 2))])], 2⟩ 0 1).1.get 0 =
      Store.get ⟨[(0, [("k", HVal.prim (JVal.num 1))]),
       (1, [("k", HVal.prim (JVal.num 2))])], 2⟩ 0 ∧
    (hmerge 3 ⟨[(0, [("k", HVal.prim (JVal.num 1))]),
       (1, [("k", HVal.prim (JVal.num 2))])], 2⟩ 0 1).1.get 1 =
      Store.get ⟨[(0, [("k", HVal.prim (JVal.num 1))]),
       (1, [("k", HVal.prim (JVal.num 2))])], 2⟩ 1 ∧
    (∀ x, x < (2 : Nat) →
      (hmerge 3 ⟨[(0, [("k", HVal.prim (JVal.num 1))]),
         (1, [("k", HVal.prim (JVal.num 2))])], 2⟩ 0 1).1.get x =
      Store.get ⟨[(0, [("k", HVal.prim (JVal.num 1))]),
       (1, [("k", HVal.prim (JVal.num 2))])], 2⟩ x) :=
  claim_c6_merge_pure 3 ⟨[(0, [("k", HVal.prim (JVal.num 1))]),
    (1, [("k", HVal.prim (JVal.num 2))])], 2⟩ 0 1
    (by intro p hp; simp at hp; rcases hp with hh | hh <;> rw [hh] <;> decide)
    (by decide) (by decide)
